import Mathlib

set_option maxHeartbeats 1000000
set_option maxRecDepth 100000

/-!
Verification of the risk-classification engine of the gaado backend:
the keyword-based local classifier (`analyze_risk_local`), its
validation/normalization logic in `get_risk_assessment`, and the AI
response normalizer (`ModelParser.parse_ai_response`).  Python strings
are modelled as lists of characters; ASCII case mapping stands in for
Python's `str.lower`/`str.upper`.
-/

namespace Gaado

/-- Python strings are modelled as lists of characters. -/
abbrev Text := List Char

/-- ASCII lowering, modelling `str.lower()` on the ASCII fragment. -/
def lowerT (t : Text) : Text := t.map Char.toLower

/-- ASCII raising, modelling `str.upper()` on the ASCII fragment. -/
def upperT (t : Text) : Text := t.map Char.toUpper

/-- `prefixB needle hay` models Python `hay.startswith(needle)`. -/
def prefixB : Text → Text → Bool
  | [], _ => true
  | _ :: _, [] => false
  | a :: as_, b :: bs => a == b && prefixB as_ bs

/-- `suffixB needle hay` models Python `hay.endswith(needle)`. -/
def suffixB (needle hay : Text) : Bool :=
  prefixB needle.reverse hay.reverse

/-- `substrB needle hay` models Python's `needle in hay` substring test. -/
def substrB (needle : Text) : Text → Bool
  | [] => prefixB needle []
  | c :: rest => prefixB needle (c :: rest) || substrB needle rest

/-- Characters stripped by Python's `str.strip()` (ASCII whitespace). -/
def pySpace (c : Char) : Bool :=
  c == ' ' || c == '\t' || c == '\n' || c == '\r' ||
    c == Char.ofNat 11 || c == Char.ofNat 12

/-- Models Python `str.strip()`. -/
def pystrip (t : Text) : Text :=
  ((t.dropWhile pySpace).reverse.dropWhile pySpace).reverse

/-- `VALID_CATEGORIES` from `process_risks.py` (insertion order preserved). -/
def VALID_CATEGORIES : List (Text × List Text) :=
  [("Operational Risk".toList,
     ["Technical Failure".toList, "Transaction Issue".toList, "Access & Identity".toList,
      "System Downtime".toList, "Technical Support".toList]),
   ("Reputational Risk".toList,
     ["Customer Service".toList, "Ethical & Trust".toList, "Fee Transparency".toList]),
   ("Liquidity Risk".toList,
     ["Withdrawal Limits".toList, "Market Panic".toList, "Currency Availability".toList]),
   ("Security & Fraud".toList,
     ["Phishing & Scams".toList, "Account Takeover".toList, "Data Privacy".toList,
      "Safety".toList]),
   ("Compliance & Legal".toList,
     ["Account Freezing".toList, "Regulatory/Sharia".toList]),
   ("General".toList,
     ["Neutral".toList, "Spam/Neutral".toList, "Feedback".toList,
      "Neutral (Competitor)".toList])]

/-- The six taxonomy category names, in iteration order. -/
def catNames : List Text := VALID_CATEGORIES.map Prod.fst

/-- `VALID_RISK_LEVELS` from `process_risks.py`. -/
def VALID_RISK_LEVELS : List Text :=
  ["Low".toList, "Medium".toList, "High".toList, "Critical".toList]

/-- The `patterns` table of `analyze_risk_local` (insertion order preserved). -/
def patterns : List (Text × List (Text × List Text)) :=
  [("Operational Risk".toList,
     [("Technical Failure".toList,
        ["crash".toList, "bug".toList, "error".toList, "not working".toList, "broken".toList,
         "fail".toList, "doesn't work".toList, "not functioning".toList]),
      ("Transaction Issue".toList,
        ["transaction".toList, "debit".toList, "credit".toList, "transfer".toList,
         "remittance".toList, "money not received".toList, "payment failed".toList,
         "deducted".toList, "withdrawal".toList]),
      ("Access & Identity".toList,
        ["password".toList, "login".toList, "otp".toList, "sms".toList,
         "authentication".toList, "blocked".toList, "access".toList, "account locked".toList]),
      ("System Downtime".toList,
        ["system down".toList, "offline".toList, "server".toList, "outage".toList,
         "not available".toList, "down".toList]),
      ("Technical Support".toList,
        ["how to".toList, "how can".toList, "help".toList, "support".toList,
         "question".toList, "setup".toList, "create account".toList, "open account".toList])]),
   ("Reputational Risk".toList,
     [("Customer Service".toList,
        ["rude".toList, "ignored".toList, "wait".toList, "slow".toList, "bad service".toList,
         "poor service".toList, "help me".toList, "customer care".toList, "support".toList]),
      ("Ethical & Trust".toList,
        ["corruption".toList, "scam".toList, "fraud".toList, "thief".toList, "steal".toList,
         "unfair".toList, "dishonest".toList, "trust".toList, "not trustworthy".toList]),
      ("Fee Transparency".toList,
        ["fee".toList, "charge".toList, "commission".toList, "cost".toList, "hidden".toList,
         "unexplained".toList, "expensive".toList, "high rate".toList, "deduct".toList])]),
   ("Liquidity Risk".toList,
     [("Withdrawal Limits".toList,
        ["withdraw".toList, "withdrawal".toList, "limit".toList, "cash".toList, "atm".toList,
         "can't withdraw".toList]),
      ("Market Panic".toList,
        ["take your money".toList, "withdraw now".toList, "close".toList, "bank run".toList,
         "panic".toList, "get out".toList]),
      ("Currency Availability".toList,
        ["currency".toList, "usd".toList, "dollar".toList, "shortage".toList,
         "not available".toList])]),
   ("Security & Fraud".toList,
     [("Phishing & Scams".toList,
        ["phishing".toList, "fake".toList, "scam".toList, "fraudulent".toList,
         "fraud".toList]),
      ("Account Takeover".toList,
        ["hacked".toList, "hack".toList, "stolen".toList, "disappeared".toList,
         "missing money".toList, "unauthorized".toList]),
      ("Data Privacy".toList,
        ["privacy".toList, "leaked".toList, "data".toList, "personal info".toList,
         "information".toList, "statement".toList]),
      ("Safety".toList,
        ["safety".toList, "safe".toList, "secure".toList, "security".toList, "theft".toList,
         "steal".toList, "rob".toList, "afraid".toList, "fear".toList, "danger".toList])]),
   ("Compliance & Legal".toList,
     [("Account Freezing".toList,
        ["frozen".toList, "blocked".toList, "freeze".toList, "can't access".toList,
         "won't release".toList, "aml".toList, "kyc".toList]),
      ("Regulatory/Sharia".toList,
        ["sharia".toList, "islamic".toList, "halal".toList, "haram".toList,
         "regulatory".toList, "law".toList, "compliance".toList, "shirk".toList])]),
   ("General".toList,
     [("Neutral".toList,
        ["good".toList, "great".toList, "excellent".toList, "thank".toList, "thanks".toList,
         "pray".toList, "prayer".toList, "compliment".toList]),
      ("Spam/Neutral".toList,
        ["send me".toList, "money".toList, "dollar".toList, "please send".toList,
         "help me with money".toList]),
      ("Feedback".toList,
        ["idea".toList, "suggestion".toList, "feature".toList, "improve".toList,
         "better".toList, "recommend".toList]),
      ("Neutral (Competitor)".toList,
        ["waafi".toList, "dahabshiil".toList, "salaam bank".toList, "competitor".toList,
         "other bank".toList])])]

/-- `high_risk_keywords` from `analyze_risk_local`. -/
def high_risk_keywords : List Text :=
  ["hacked".toList, "stolen".toList, "fraud".toList, "scam".toList, "corruption".toList,
   "thief".toList, "steal".toList, "missing money".toList, "failed transaction".toList,
   "money disappeared".toList]

/-- `critical_keywords` from `analyze_risk_local`. -/
def critical_keywords : List Text :=
  ["bank run".toList, "withdraw everything".toList, "close".toList, "panic".toList,
   "system down".toList, "outage".toList, "everyone".toList]

/-- `medium_risk_keywords` from `analyze_risk_local`. -/
def medium_risk_keywords : List Text :=
  ["problem".toList, "issue".toList, "bad".toList, "poor".toList, "slow".toList,
   "error".toList, "not working".toList, "complaint".toList]

/-- The result record of the classifiers: the dict
`{"risk_category": _, "risk_subcategory": _, "risk_level": _}`. -/
structure RiskResult where
  risk_category : Text
  risk_subcategory : Text
  risk_level : Text
deriving DecidableEq, Repr

/-- The combined text of `analyze_risk_local`:
`f"{somali_text} {english_text}".lower()`. -/
def combinedText (somali_text english_text : Text) : Text :=
  lowerT (somali_text ++ " ".toList ++ english_text)

/-- One subcategory's score:
`sum(1 for keyword in keywords if keyword in combined_text)`. -/
def subScore (text : Text) (keywords : List Text) : Nat :=
  (keywords.filter (fun keyword => substrB keyword text)).length

/-- The dict key `f"{category} > {subcategory}"`. -/
def keyOf (category subcategory : Text) : Text :=
  category ++ " > ".toList ++ subcategory

/-- The entries a single category contributes to `subcategory_scores`
(one per subcategory with positive score, in iteration order). -/
def subEntries (text : Text) (category : Text)
    (subs : List (Text × List Text)) : List (Text × Nat) :=
  subs.filterMap (fun p =>
    let score := subScore text p.2
    if 0 < score then some (keyOf category p.1, score) else none)

/-- The `subcategory_scores` dict as an association list in insertion order. -/
def subcategoryScores (text : Text) : List (Text × Nat) :=
  (patterns.map (fun p => subEntries text p.1 p.2)).flatten

/-- The `category_scores` dict as an association list in insertion order:
per category the sum of its positive subcategory scores, kept only if positive. -/
def categoryScores (text : Text) : List (Text × Nat) :=
  patterns.filterMap (fun p =>
    let cs := ((subEntries text p.1 p.2).map Prod.snd).sum
    if 0 < cs then some (p.1, cs) else none)

/-- Python's `max(_, key=...)` over an association list: the first key whose
value is maximal (replacement only on strictly greater value). -/
def pyMaxAux (best : Text × Nat) : List (Text × Nat) → Text × Nat
  | [] => best
  | kv :: rest => pyMaxAux (if best.2 < kv.2 then kv else best) rest

/-- `max(category_scores, key=lambda k: category_scores[k])`, or `none` on an
empty dict (the code guards this case separately). -/
def pyMax : List (Text × Nat) → Option Text
  | [] => none
  | kv :: rest => some (pyMaxAux kv rest).1

/-- Everything after the first occurrence of `" > "`; on the keys of
`subcategory_scores` this coincides with `key.split(" > ")[1]` because no
category or subcategory name contains `" > "` (proved below). -/
def afterArrow : Text → Text
  | ' ' :: '>' :: ' ' :: rest => rest
  | _ :: rest => afterArrow rest
  | [] => []

/-- The subcategory-selection loop of `analyze_risk_local`: iterate
`subcategory_scores`, keep entries whose key starts with
`best_category + " >"`, replace the current best only on a strictly
greater score.  Returns `(best_subcategory, best_subcategory_score)`. -/
def pickSub (best_category : Text) (subs : List (Text × Nat)) :
    Option Text × Nat :=
  subs.foldl
    (fun acc ks =>
      if prefixB (best_category ++ " >".toList) ks.1 = true ∧ acc.2 < ks.2 then
        (some (afterArrow ks.1), ks.2)
      else acc)
    (none, 0)

/-- The risk-level assignment of `analyze_risk_local`: strict priority scan
of the three severity keyword sets over the combined text. -/
def riskLevelOf (text : Text) : Text :=
  if critical_keywords.any (fun keyword => substrB keyword text) then "Critical".toList
  else if high_risk_keywords.any (fun keyword => substrB keyword text) then "High".toList
  else if medium_risk_keywords.any (fun keyword => substrB keyword text) then "Medium".toList
  else "Low".toList

/-- Shallow embedding of `analyze_risk_local` from
`src/complains_processing/process_risks.py`. -/
def analyze_risk_local (somali_text english_text : Text) : RiskResult :=
  let combined_text := combinedText somali_text english_text
  match pyMax (categoryScores combined_text) with
  | none =>
      -- both arms of the positive-word check return the same record
      ⟨"General".toList, "Neutral".toList, "Low".toList⟩
  | some best_category =>
      let picked := pickSub best_category (subcategoryScores combined_text)
      let fallbackSub :=
        ((List.lookup best_category VALID_CATEGORIES).getD
          ["Neutral".toList]).headD []
      let best_subcategory :=
        match picked.1 with
        | some sub => if sub.isEmpty then fallbackSub else sub
        | none => fallbackSub
      ⟨best_category, best_subcategory, riskLevelOf combined_text⟩

/-! ### Specification-side definitions (from the spec's words, for refinement) -/

/-- Maximum of a list of naturals. -/
def listMaxN (l : List Nat) : Nat := l.foldr max 0

/-- Spec side: a category's score is the sum of its subcategory scores. -/
def specCatScore (text : Text) (subs : List (Text × List Text)) : Nat :=
  (subs.map (fun p => subScore text p.2)).sum

/-- Spec side (`spec.md` §4.1, claim C1): score every category, exclude
zero-score categories, fall back to General/Neutral/Low when none remains;
otherwise take the first category attaining the maximal category score in
Taxonomy iteration order and, within it, the first subcategory attaining the
maximal subcategory score; the level is the independent severity scan. -/
def specClassify (somali_text english_text : Text) : RiskResult :=
  let text := combinedText somali_text english_text
  let scored := patterns.map (fun p => (p.1, p.2, specCatScore text p.2))
  let nonzero := scored.filter (fun t => t.2.2 ≠ 0)
  match nonzero.find? (fun t => t.2.2 = listMaxN (nonzero.map (fun u => u.2.2))) with
  | none => ⟨"General".toList, "Neutral".toList, "Low".toList⟩
  | some t =>
      let subScored := t.2.1.map (fun q => (q.1, subScore text q.2))
      let bestSub :=
        ((subScored.find? (fun q => q.2 = listMaxN (subScored.map Prod.snd))).map
          Prod.fst).getD []
      ⟨t.1, bestSub, riskLevelOf text⟩

/-! ### AI-path embedding: finish-reason handling and response validation
(`get_risk_assessment`, lines 294-433 of `process_risks.py`) -/

/-- The sentinel result for safety-blocked responses. -/
def safetySentinel : RiskResult :=
  ⟨"General".toList, "Neutral".toList, "High".toList⟩

/-- The all-empty result returned on abnormal termination and parse errors. -/
def emptyResult : RiskResult := ⟨[], [], []⟩

/-- The finish-reason handling of `get_risk_assessment` (lines 300-334):
`none` models a falsy `finish_reason` (the code proceeds to parse the text),
`some fr` models `str(finish_reason)`.  Returns `some r` when the code
short-circuits with result `r`, `none` when it proceeds to response parsing. -/
def handleFinishReason : Option Text → Option RiskResult
  | none => none
  | some fr =>
      if fr ≠ [] ∧ substrB "SAFETY".toList (upperT fr) = true then
        some safetySentinel
      else if fr ≠ [] ∧ ¬ substrB "STOP".toList (upperT fr) = true then
        some emptyResult
      else none

/-- Category validation of `get_risk_assessment` (lines 366-374): exact
matches and empty strings pass through; otherwise the first valid category
related by case-insensitive bidirectional containment is taken; otherwise the
candidate passes through with a logged warning. -/
def fixCategory (category : Text) : Text :=
  if category ≠ [] ∧ category ∉ catNames then
    match catNames.find? (fun v =>
        substrB (lowerT v) (lowerT category) || substrB (lowerT category) (lowerT v)) with
    | some v => v
    | none => category
  else category

/-- Subcategory validation of `get_risk_assessment` (lines 377-387), against
the (possibly corrected) category's subcategory list. -/
def fixSubcategory (category subcategory : Text) : Text :=
  if category ≠ [] ∧ subcategory ≠ [] then
    let valid_subs := (List.lookup category VALID_CATEGORIES).getD []
    if subcategory ∉ valid_subs then
      match valid_subs.find? (fun v =>
          substrB (lowerT v) (lowerT subcategory) ||
            substrB (lowerT subcategory) (lowerT v)) with
      | some v => v
      | none => subcategory
    else subcategory
  else subcategory

/-- Risk-level validation of `get_risk_assessment` (lines 390-397): exact
case-insensitive match against the four canonical levels, else passthrough. -/
def fixLevel (level : Text) : Text :=
  if level ≠ [] ∧ level ∉ VALID_RISK_LEVELS then
    match VALID_RISK_LEVELS.find? (fun v => lowerT v == lowerT level) with
    | some v => v
    | none => level
  else level

/-- The validation block of `get_risk_assessment` (lines 361-403) applied to
the extracted and stripped category/subcategory/level strings. -/
def normalizeAssessment (category subcategory level : Text) : RiskResult :=
  let c := fixCategory category
  ⟨c, fixSubcategory c subcategory, fixLevel level⟩

/-! ### AI-path embedding: markdown-fence stripping and brace-span slicing -/

/-- Everything strictly after the first occurrence of `sep`
(`s.split(sep)[1]`, composed below with `beforeFirstSep`). -/
def afterFirstSep (sep : Text) : Text → Text
  | [] => []
  | c :: rest =>
      if prefixB sep (c :: rest) then (c :: rest).drop sep.length
      else afterFirstSep sep rest

/-- Everything strictly before the first occurrence of `sep`
(`s.split(sep)[0]`). -/
def beforeFirstSep (sep : Text) : Text → Text
  | [] => []
  | c :: rest =>
      if prefixB sep (c :: rest) then []
      else c :: beforeFirstSep sep rest

/-- The markdown-fence stripping of `get_risk_assessment` (lines 347-350):
`split("```json")[1].split("```")[0].strip()` when a fence marker occurs. -/
def stripFencesPR (t : Text) : Text :=
  if substrB "```json".toList t then
    pystrip (beforeFirstSep "```".toList (afterFirstSep "```json".toList t))
  else if substrB "```".toList t then
    pystrip (beforeFirstSep "```".toList (afterFirstSep "```".toList t))
  else t

/-- Index of the first occurrence of `c`; models `str.find` with `-1 ↦ none`. -/
def findChar (c : Char) : Text → Option Nat
  | [] => none
  | d :: rest => if d = c then some 0 else (findChar c rest).map (· + 1)

/-- Index of the last occurrence of `c`; models `str.rfind`. -/
def rfindChar (c : Char) (t : Text) : Option Nat :=
  (findChar c t.reverse).map (fun i => t.length - 1 - i)

/-- The brace-span extraction of `get_risk_assessment` (lines 353-356): slice
from the first opening brace to the last closing brace when both exist with
the closing one strictly later. -/
def braceSpan (t : Text) : Text :=
  match findChar (Char.ofNat 123) t, rfindChar (Char.ofNat 125) t with
  | some s, some e => if s < e then (t.take (e + 1)).drop s else t
  | _, _ => t

/-- The fence stripping of `ModelParser.parse_ai_response` (lines 32-43):
strip, drop a leading fence marker, drop a trailing fence, strip again.
Note: no brace-span slicing happens on this path. -/
def stripFencesMP (t0 : Text) : Text :=
  let t := pystrip t0
  let t1 := if prefixB "```json".toList t then t.drop 7
            else if prefixB "```".toList t then t.drop 3
            else t
  let t2 := if suffixB "```".toList t1 then t1.take (t1.length - 3) else t1
  pystrip t2

/-! ### JSON model (`json.loads`), with numbers as exact rationals -/

/-- JSON values as produced by `json.loads`. -/
inductive JVal where
  | jnull
  | jbool (b : Bool)
  | jnum (q : Rat)
  | jstr (s : Text)
  | jarr (elems : List JVal)
  | jobj (fields : List (Text × JVal))

/-- JSON insignificant whitespace. -/
def jsonWs (c : Char) : Bool :=
  c == ' ' || c == '\t' || c == '\n' || c == '\r'

def skipWs (t : Text) : Text := t.dropWhile jsonWs

def hexVal (c : Char) : Option Nat :=
  if '0' ≤ c ∧ c ≤ '9' then some (c.toNat - 48)
  else if 'a' ≤ c ∧ c ≤ 'f' then some (c.toNat - 87)
  else if 'A' ≤ c ∧ c ≤ 'F' then some (c.toNat - 55)
  else none

/-- Body of a JSON string after the opening quote; returns the decoded
characters and the remainder after the closing quote. -/
def parseStringBody : Text → Option (Text × Text)
  | [] => none
  | c :: rest =>
      if c = '"' then some ([], rest)
      else if c = '\\' then
        match rest with
        | [] => none
        | e :: rest2 =>
            if e = 'u' then
              match rest2 with
              | h1 :: h2 :: h3 :: h4 :: rest3 =>
                  match hexVal h1, hexVal h2, hexVal h3, hexVal h4 with
                  | some a, some b, some cc, some d =>
                      (parseStringBody rest3).map
                        (fun pr => (Char.ofNat (a * 4096 + b * 256 + cc * 16 + d) :: pr.1, pr.2))
                  | _, _, _, _ => none
              | _ => none
            else
              match
                (if e = '"' then some '"'
                 else if e = '\\' then some '\\'
                 else if e = '/' then some '/'
                 else if e = 'b' then some (Char.ofNat 8)
                 else if e = 'f' then some (Char.ofNat 12)
                 else if e = 'n' then some '\n'
                 else if e = 'r' then some '\r'
                 else if e = 't' then some '\t'
                 else none) with
              | some d => (parseStringBody rest2).map (fun pr => (d :: pr.1, pr.2))
              | none => none
      else (parseStringBody rest).map (fun pr => (c :: pr.1, pr.2))

def digitsToNat (ds : Text) : Nat :=
  ds.foldl (fun n c => n * 10 + (c.toNat - 48)) 0

/-- A JSON number literal, parsed exactly into a rational. -/
def parseNumber (t : Text) : Option (Rat × Text) :=
  let (neg, t1) : Bool × Text :=
    match t with
    | '-' :: r => (true, r)
    | _ => (false, t)
  let intDs := t1.takeWhile Char.isDigit
  if intDs.isEmpty then none else
  let t2 := t1.dropWhile Char.isDigit
  let (fracOk, fracDs, t3) : Bool × Text × Text :=
    match t2 with
    | '.' :: r =>
        let f := r.takeWhile Char.isDigit
        (!f.isEmpty, f, r.dropWhile Char.isDigit)
    | _ => (true, [], t2)
  if !fracOk then none else
  let (expOk, expVal, t4) : Bool × Int × Text :=
    match t3 with
    | ec :: r =>
        if ec = 'e' ∨ ec = 'E' then
          let (esign, r2) : Int × Text :=
            match r with
            | '+' :: rr => (1, rr)
            | '-' :: rr => (-1, rr)
            | _ => (1, r)
          let eds := r2.takeWhile Char.isDigit
          if eds.isEmpty then (false, 0, t3)
          else (true, esign * (digitsToNat eds : Int), r2.dropWhile Char.isDigit)
        else (true, 0, t3)
    | [] => (true, 0, [])
  if !expOk then none else
  let mag : Rat :=
    (digitsToNat intDs : Rat) + (digitsToNat fracDs : Rat) / ((10 : Rat) ^ fracDs.length)
  let signed := if neg then -mag else mag
  some (signed * (10 : Rat) ^ expVal, t4)

/-- Parsing states of the recursive-descent JSON reader. -/
inductive PMode where
  | pval
  | pobjKey (acc : List (Text × JVal))
  | pobjMore (acc : List (Text × JVal))
  | parrVal (acc : List JVal)
  | parrMore (acc : List JVal)

/-- Fuel-indexed recursive-descent JSON reader. -/
def parseStep : Nat → PMode → Text → Option (JVal × Text)
  | 0, _, _ => none
  | fuel + 1, PMode.pval, t =>
      match skipWs t with
      | [] => none
      | c :: rest =>
          if c = Char.ofNat 123 then
            match skipWs rest with
            | d :: rest2 =>
                if d = Char.ofNat 125 then some (JVal.jobj [], rest2)
                else parseStep fuel (PMode.pobjKey []) (d :: rest2)
            | [] => none
          else if c = '[' then
            match skipWs rest with
            | d :: rest2 =>
                if d = ']' then some (JVal.jarr [], rest2)
                else parseStep fuel (PMode.parrVal []) (d :: rest2)
            | [] => none
          else if c = '"' then
            (parseStringBody rest).map (fun pr => (JVal.jstr pr.1, pr.2))
          else if c = 't' then
            if prefixB "rue".toList rest then some (JVal.jbool true, rest.drop 3)
            else none
          else if c = 'f' then
            if prefixB "alse".toList rest then some (JVal.jbool false, rest.drop 4)
            else none
          else if c = 'n' then
            if prefixB "ull".toList rest then some (JVal.jnull, rest.drop 3)
            else none
          else
            (parseNumber (c :: rest)).map (fun pr => (JVal.jnum pr.1, pr.2))
  | fuel + 1, PMode.pobjKey acc, t =>
      match t with
      | '"' :: rest =>
          match parseStringBody rest with
          | some (k, rest2) =>
              match skipWs rest2 with
              | ':' :: rest3 =>
                  match parseStep fuel PMode.pval rest3 with
                  | some (v, rest4) =>
                      parseStep fuel (PMode.pobjMore ((k, v) :: acc)) rest4
                  | none => none
              | _ => none
          | none => none
      | _ => none
  | fuel + 1, PMode.pobjMore acc, t =>
      match skipWs t with
      | c :: rest =>
          if c = Char.ofNat 125 then some (JVal.jobj acc.reverse, rest)
          else if c = ',' then
            match skipWs rest with
            | d :: rest2 => parseStep fuel (PMode.pobjKey acc) (d :: rest2)
            | [] => none
          else none
      | [] => none
  | fuel + 1, PMode.parrVal acc, t =>
      match parseStep fuel PMode.pval t with
      | some (v, rest) => parseStep fuel (PMode.parrMore (v :: acc)) rest
      | none => none
  | fuel + 1, PMode.parrMore acc, t =>
      match skipWs t with
      | c :: rest =>
          if c = ']' then some (JVal.jarr acc.reverse, rest)
          else if c = ',' then parseStep fuel (PMode.parrVal acc) rest
          else none
      | [] => none

/-- `json.loads`: parse one value and require only whitespace after it. -/
def jsonParse (t : Text) : Option JVal :=
  match parseStep (2 * t.length + 2) PMode.pval t with
  | some (v, rest) => if skipWs rest = [] then some v else none
  | none => none

/-- Python dict lookup on parsed object fields: later duplicate keys
overwrite earlier ones, so the last binding wins. -/
def lookupLast (fields : List (Text × JVal)) (k : Text) : Option JVal :=
  (fields.reverse.find? (fun p => p.1 == k)).map Prod.snd

/-! ### Post-response processing of `get_risk_assessment` (lines 336-433) -/

/-- Outcome of the response-processing `try` block: a normal result, the
`json.JSONDecodeError` handler (which logs the parse-error indicator), or the
generic exception handler. -/
inductive PROutcome where
  | ok (r : RiskResult)
  | parseError
  | otherError
deriving DecidableEq, Repr

/-- The dict each outcome returns: both error handlers return the all-empty
result. -/
def PROutcome.result : PROutcome → RiskResult
  | .ok r => r
  | .parseError => emptyResult
  | .otherError => emptyResult

/-- `result.get(key, "").strip()`: `none` models the `AttributeError` raised
by `.strip()` on a non-string JSON value (caught by the generic handler). -/
def getStrippedStr (fields : List (Text × JVal)) (k : Text) : Option Text :=
  match lookupLast fields k with
  | none => some (pystrip [])
  | some (JVal.jstr s) => some (pystrip s)
  | some _ => none

/-- The response-text processing of `get_risk_assessment`: strip, strip
fences, slice to the brace span, parse JSON, extract and validate fields. -/
def processResponseText (response_text : Text) : PROutcome :=
  let t := braceSpan (stripFencesPR (pystrip response_text))
  match jsonParse t with
  | none => PROutcome.parseError
  | some (JVal.jobj fields) =>
      match getStrippedStr fields "risk_category".toList,
            getStrippedStr fields "risk_subcategory".toList,
            getStrippedStr fields "risk_level".toList with
      | some c, some sc, some lv => PROutcome.ok (normalizeAssessment c sc lv)
      | _, _, _ => PROutcome.otherError
  | some _ => PROutcome.otherError

/-! ### `ModelParser.parse_ai_response` (`src/database/model_parser.py`) -/

/-- Python truthiness of a JSON value. -/
def pyTruthy : JVal → Bool
  | .jnull => false
  | .jbool b => b
  | .jnum q => q ≠ 0
  | .jstr s => !s.isEmpty
  | .jarr l => !l.isEmpty
  | .jobj l => !l.isEmpty

/-- `str()` of a JSON value.  Exact on strings, booleans, `None` and integers
(the only shapes the repository's responses carry); fractional numbers and
containers are rendered schematically, which no theorem below relies on. -/
def pyStr : JVal → Text
  | .jstr s => s
  | .jbool true => "True".toList
  | .jbool false => "False".toList
  | .jnull => "None".toList
  | .jnum q =>
      if q.den = 1 then (toString q.num).data
      else (toString q.num).data ++ "/".toList ++ (toString q.den).data
  | .jarr _ => ['[', ']']
  | .jobj _ => [Char.ofNat 123, Char.ofNat 125]

/-- Python `float(str)` on finite decimal literals (sign, digits, optional
fraction, optional exponent); other strings fail coercion. -/
def pyFloatOfStr (s : Text) : Option Rat :=
  let t := pystrip s
  let (neg, t1) : Bool × Text :=
    match t with
    | '-' :: r => (true, r)
    | '+' :: r => (false, r)
    | _ => (false, t)
  let intDs := t1.takeWhile Char.isDigit
  let t2 := t1.dropWhile Char.isDigit
  let (fracDs, t3) : Text × Text :=
    match t2 with
    | '.' :: r => (r.takeWhile Char.isDigit, r.dropWhile Char.isDigit)
    | _ => ([], t2)
  if intDs.isEmpty ∧ fracDs.isEmpty then none else
  let (expOk, expVal, t4) : Bool × Int × Text :=
    match t3 with
    | ec :: r =>
        if ec = 'e' ∨ ec = 'E' then
          let (esign, r2) : Int × Text :=
            match r with
            | '+' :: rr => (1, rr)
            | '-' :: rr => (-1, rr)
            | _ => (1, r)
          let eds := r2.takeWhile Char.isDigit
          if eds.isEmpty then (false, 0, t3)
          else (true, esign * (digitsToNat eds : Int), r2.dropWhile Char.isDigit)
        else (false, 0, t3)
    | [] => (true, 0, [])
  if !expOk then none
  else if !t4.isEmpty then none
  else
    let mag : Rat :=
      (digitsToNat intDs : Rat) + (digitsToNat fracDs : Rat) / ((10 : Rat) ^ fracDs.length)
    let v := if neg then -mag else mag
    some (v * (10 : Rat) ^ expVal)

/-- Python `float(x)` on a JSON value; `none` models the caught
`ValueError`/`TypeError`. -/
def pyFloat : JVal → Option Rat
  | .jnum q => some q
  | .jbool true => some 1
  | .jbool false => some 0
  | .jstr s => pyFloatOfStr s
  | _ => none

/-- The `confidence_score` handling of `parse_ai_response` (lines 56-66):
missing or null stays null; failed coercion becomes null with a warning;
numeric values outside `[0.0, 1.0]` are clamped with a warning. -/
def coerceConfidence : Option JVal → Option Rat
  | none => none
  | some JVal.jnull => none
  | some v =>
      match pyFloat v with
      | none => none
      | some q => some (if q < 0 ∨ 1 < q then max 0 (min 1 q) else q)

/-- The model built by `parse_ai_response` (`ProcessedCommentCreate`,
`src/database/models.py`). -/
structure ProcessedCommentCreate where
  raw_comment_id : Option Int
  category_slug : Option Text
  sentiment_slug : Option Text
  threat_level_slug : Option Text
  translation_en : Option Text
  confidence_score : Option Rat
  dialect : Option Text
  keywords : Option (List Text)
  risk : Option Text
  model_name : Option Text
  is_reviewed : Bool
deriving DecidableEq, Repr

/-- Pydantic acceptance of an `Optional[str]` field given a raw JSON value:
missing and null become `none`, strings pass through, anything else raises a
validation error (modelled as the outer `none`). -/
def strFieldAccept : Option JVal → Option (Option Text)
  | none => some none
  | some JVal.jnull => some none
  | some (JVal.jstr s) => some (some s)
  | some _ => none

/-- The `threat_level` handling (lines 49-53): truthy values go through
`str(x).strip().lower()`; falsy values are passed to the model as-is. -/
def threatField : Option JVal → Option (Option Text)
  | none => some none
  | some v =>
      if pyTruthy v then some (some (lowerT (pystrip (pyStr v))))
      else
        match v with
        | JVal.jnull => some none
        | JVal.jstr s => some (some s)
        | _ => none

/-- The `risk` handling (lines 69-71): truthy values go through
`str(x).strip()`; falsy values are passed to the model as-is. -/
def riskField : Option JVal → Option (Option Text)
  | none => some none
  | some v =>
      if pyTruthy v then some (some (pystrip (pyStr v)))
      else
        match v with
        | JVal.jnull => some none
        | JVal.jstr s => some (some s)
        | _ => none

/-- Outcome of `parse_ai_response`: the built model, the
`json.JSONDecodeError` handler (distinct parse-failure log), or the generic
exception handler; both handlers return `None` to the caller. -/
inductive MPOutcome where
  | ok (pc : ProcessedCommentCreate)
  | parseError
  | otherError
deriving DecidableEq, Repr

/-- Field extraction of `parse_ai_response` after a successful JSON parse
(lines 48-90). -/
def extractFields (rid : Option Int) (fields : List (Text × JVal)) : MPOutcome :=
  match threatField (lookupLast fields "threat_level".toList),
        strFieldAccept (lookupLast fields "english_text".toList),
        riskField (lookupLast fields "risk".toList) with
  | some tl, some tr, some rk =>
      MPOutcome.ok
        ⟨rid, none, none, tl, tr,
          coerceConfidence (lookupLast fields "confidence_score".toList),
          none, none, rk, none, false⟩
  | _, _, _ => MPOutcome.otherError

/-- Shallow embedding of `ModelParser.parse_ai_response`. -/
def parse_ai_response (response_text : Text) (rid : Option Int) : MPOutcome :=
  let t := stripFencesMP response_text
  match jsonParse t with
  | none => MPOutcome.parseError
  | some (JVal.jobj fields) => extractFields rid fields
  | some _ => MPOutcome.otherError

/-- The spec's embedded-JSON example response (a JSON object surrounded by
prose). -/
def proseExample : Text :=
  "Sure, here you go: \x7b\"risk_category\": \"General\", \"risk_subcategory\": \"Neutral\", \"risk_level\": \"Low\"\x7d Hope that helps!".toList

/-- A response whose translation text carries surrounding whitespace. -/
def trimExample : Text :=
  "\x7b\"english_text\": \" hello \", \"risk\": \" r1 \"\x7d".toList

/-- Projection of the parsed translation out of a parser outcome. -/
def mpTranslation : MPOutcome → Option Text
  | MPOutcome.ok pc => pc.translation_en
  | _ => none

/-- Projection of the parsed risk string out of a parser outcome. -/
def mpRisk : MPOutcome → Option Text
  | MPOutcome.ok pc => pc.risk
  | _ => none

/-! ### Generic list lemmas -/

theorem listMaxN_cons (a : Nat) (l : List Nat) :
    listMaxN (a :: l) = max a (listMaxN l) := rfl

theorem listMaxN_mem : ∀ {l : List Nat}, l ≠ [] → listMaxN l ∈ l
  | [], h => absurd rfl h
  | [a], _ => by simp [listMaxN]
  | a :: b :: t, _ => by
      rcases Nat.le_total a (listMaxN (b :: t)) with h | h
      · rw [listMaxN_cons, Nat.max_eq_right h]
        exact List.mem_cons_of_mem _ (listMaxN_mem (by simp))
      · rw [listMaxN_cons, Nat.max_eq_left h]
        exact List.mem_cons_self _ _

theorem listMaxN_pos_mem {l : List Nat} (h : 0 < listMaxN l) : listMaxN l ∈ l := by
  cases l with
  | nil => simp [listMaxN] at h
  | cons a t => exact listMaxN_mem (by simp)

theorem le_listMaxN : ∀ {l : List Nat} {a : Nat}, a ∈ l → a ≤ listMaxN l := by
  intro l
  induction l with
  | nil => intro a h; cases h
  | cons x xs ih =>
      intro a h
      rw [listMaxN_cons]
      rcases List.mem_cons.mp h with rfl | h
      · exact Nat.le_max_left _ _
      · exact le_trans (ih h) (Nat.le_max_right _ _)

theorem find?_eq_some_of_mem {α : Type} {p : α → Bool} :
    ∀ {l : List α} {a : α}, a ∈ l → p a = true → ∃ y, l.find? p = some y := by
  intro l
  induction l with
  | nil => intro a h; cases h
  | cons x xs ih =>
      intro a h hp
      by_cases hx : p x = true
      · exact ⟨x, List.find?_cons_of_pos _ hx⟩
      · rcases List.mem_cons.mp h with rfl | h
        · exact absurd hp hx
        · obtain ⟨y, hy⟩ := ih h hp
          exact ⟨y, by rw [List.find?_cons_of_neg _ (by simpa using hx), hy]⟩

/-- Python's first-maximum `max` as a `find?` over the seeded list. -/
theorem pyMaxAux_eq : ∀ (l : List (Text × Nat)) (b : Text × Nat),
    pyMaxAux b l =
      ((b :: l).find? (fun p => p.2 = listMaxN ((b :: l).map Prod.snd))).getD b
  | [], b => by
      simp [pyMaxAux, List.find?, listMaxN]
  | x :: xs, b => by
      rw [pyMaxAux, pyMaxAux_eq xs _]
      by_cases h : b.2 < x.2
      · simp only [if_pos h]
        have hM : listMaxN ((b :: x :: xs).map Prod.snd)
            = listMaxN ((x :: xs).map Prod.snd) := by
          simp only [List.map_cons, listMaxN_cons]
          exact Nat.max_eq_right
            (le_trans (Nat.le_of_lt h) (Nat.le_max_left _ _))
        rw [hM]
        have hxle : x.2 ≤ listMaxN ((x :: xs).map Prod.snd) :=
          le_listMaxN (by simp)
        have hb : b.2 ≠ listMaxN ((x :: xs).map Prod.snd) := by omega
        conv_rhs => rw [List.find?_cons_of_neg _ (by simpa using hb)]
        have hmem : listMaxN ((x :: xs).map Prod.snd) ∈ (x :: xs).map Prod.snd :=
          listMaxN_mem (by simp)
        obtain ⟨q, hq, hq2⟩ := List.mem_map.mp hmem
        obtain ⟨y, hy⟩ := find?_eq_some_of_mem (p := fun p : Text × Nat =>
          p.2 = listMaxN ((x :: xs).map Prod.snd)) hq (by simp [hq2])
        rw [hy]
        rfl
      · simp only [if_neg h]
        have hx2 : x.2 ≤ b.2 := Nat.le_of_not_lt h
        have hM : listMaxN ((b :: x :: xs).map Prod.snd)
            = listMaxN ((b :: xs).map Prod.snd) := by
          simp only [List.map_cons, listMaxN_cons]
          rcases Nat.le_total x.2 (listMaxN (xs.map Prod.snd)) with h1 | h1
          · rw [Nat.max_eq_right h1]
          · rw [Nat.max_eq_left h1, Nat.max_eq_left hx2,
              Nat.max_eq_left (le_trans h1 hx2)]
        rw [hM]
        have hble : b.2 ≤ listMaxN ((b :: xs).map Prod.snd) :=
          le_listMaxN (by simp)
        by_cases hbM : b.2 = listMaxN ((b :: xs).map Prod.snd)
        · rw [List.find?_cons_of_pos _ (by simpa using hbM)]
          conv_rhs => rw [List.find?_cons_of_pos _ (by simpa using hbM)]
        · have hxM : x.2 ≠ listMaxN ((b :: xs).map Prod.snd) := by omega
          conv_rhs => rw [List.find?_cons_of_neg _ (by simpa using hbM),
            List.find?_cons_of_neg _ (by simpa using hxM)]
          conv_lhs => rw [List.find?_cons_of_neg _ (by simpa using hbM)]

/-- The guarded fold of the subcategory loop equals the unguarded fold over the
prefix-filtered entries. -/
theorem pickSub_eq_filter (b : Text) :
    ∀ (l : List (Text × Nat)) (acc : Option Text × Nat),
    l.foldl
      (fun a ks =>
        if prefixB (b ++ " >".toList) ks.1 = true ∧ a.2 < ks.2 then
          (some (afterArrow ks.1), ks.2)
        else a) acc
    = (l.filter (fun ks => prefixB (b ++ " >".toList) ks.1)).foldl
        (fun a ks => if a.2 < ks.2 then (some (afterArrow ks.1), ks.2) else a) acc
  | [], acc => rfl
  | x :: xs, acc => by
      by_cases hp : prefixB (b ++ " >".toList) x.1 = true
      · simp only [List.foldl_cons, List.filter_cons, hp, if_true, true_and]
        exact pickSub_eq_filter b xs _
      · have hb : prefixB (b ++ " >".toList) x.1 = false := by simpa using hp
        simp only [List.foldl_cons, List.filter_cons, hb, Bool.false_eq_true, false_and,
          if_false]
        exact pickSub_eq_filter b xs _

/-- The strictly-increasing fold of the subcategory loop picks the first entry
attaining the maximal score, provided that maximum beats the accumulator. -/
theorem pickCore_eq :
    ∀ (l : List (Text × Nat)) (acc : Option Text × Nat),
    l.foldl (fun a ks => if a.2 < ks.2 then (some (afterArrow ks.1), ks.2) else a) acc
    = if acc.2 < listMaxN (l.map Prod.snd) then
        ((l.find? (fun p => p.2 = listMaxN (l.map Prod.snd))).map
          (fun p => ((some (afterArrow p.1) : Option Text), p.2))).getD acc
      else acc
  | [], acc => by simp [listMaxN]
  | x :: xs, acc => by
      rw [List.foldl_cons, pickCore_eq xs _]
      simp only [List.map_cons, listMaxN_cons]
      by_cases h : acc.2 < x.2
      · rw [if_pos h]
        by_cases h2 : x.2 < listMaxN (xs.map Prod.snd)
        · have hMK : max x.2 (listMaxN (xs.map Prod.snd)) = listMaxN (xs.map Prod.snd) :=
            max_eq_right (Nat.le_of_lt h2)
          simp only [hMK]
          rw [if_pos h2, if_pos (lt_trans h h2)]
          have hmem : listMaxN (xs.map Prod.snd) ∈ xs.map Prod.snd :=
            listMaxN_pos_mem (Nat.lt_of_le_of_lt (Nat.zero_le _) h2)
          obtain ⟨q, hq, hq2⟩ := List.mem_map.mp hmem
          obtain ⟨y, hy⟩ := find?_eq_some_of_mem (p := fun p : Text × Nat =>
            p.2 = listMaxN (xs.map Prod.snd)) hq (by simp [hq2])
          have hx : x.2 ≠ listMaxN (xs.map Prod.snd) := by omega
          conv_rhs => rw [List.find?_cons_of_neg _ (by simpa using hx)]
          rw [hy]
          rfl
        · have hMK : max x.2 (listMaxN (xs.map Prod.snd)) = x.2 :=
            max_eq_left (Nat.le_of_not_lt h2)
          simp only [hMK]
          rw [if_neg h2, if_pos h]
          conv_rhs => rw [List.find?_cons_of_pos _ (by simp)]
          rfl
      · rw [if_neg h]
        have hx2 : x.2 ≤ acc.2 := Nat.le_of_not_lt h
        by_cases h2 : acc.2 < listMaxN (xs.map Prod.snd)
        · have hMK : max x.2 (listMaxN (xs.map Prod.snd)) = listMaxN (xs.map Prod.snd) :=
            max_eq_right (le_trans hx2 (Nat.le_of_lt h2))
          simp only [hMK]
          rw [if_pos h2, if_pos h2]
          have hx : x.2 ≠ listMaxN (xs.map Prod.snd) := by omega
          conv_rhs => rw [List.find?_cons_of_neg _ (by simpa using hx)]
        · rw [if_neg h2,
            if_neg (show ¬ acc.2 < max x.2 (listMaxN (xs.map Prod.snd)) by
              rw [Nat.not_lt] at h2 ⊢
              exact max_le hx2 h2)]

/-- `subEntries` is the positive-score filter of the per-subcategory score map. -/
theorem subEntries_eq (text c : Text) :
    ∀ subs : List (Text × List Text),
    subEntries text c subs =
      (subs.map (fun q => (keyOf c q.1, subScore text q.2))).filter
        (fun e => 0 < e.2)
  | [] => rfl
  | q :: qs => by
      by_cases h : 0 < subScore text q.2
      · simp only [subEntries, List.filterMap_cons, List.map_cons, List.filter_cons]
        rw [if_pos h, if_pos (by simpa using h)]
        exact congrArg _ (subEntries_eq text c qs)
      · simp only [subEntries, List.filterMap_cons, List.map_cons, List.filter_cons]
        rw [if_neg h, if_neg (by simpa using h)]
        exact subEntries_eq text c qs

theorem sum_filter_pos {β : Type} :
    ∀ l : List (β × Nat),
      ((l.filter (fun e => 0 < e.2)).map Prod.snd).sum = (l.map Prod.snd).sum
  | [] => rfl
  | a :: t => by
      by_cases h : 0 < a.2
      · simp [List.filter_cons, h, sum_filter_pos t]
      · have h0 : a.2 = 0 := by omega
        simp [List.filter_cons, h, h0, sum_filter_pos t]

theorem listMaxN_filter_pos {β : Type} :
    ∀ l : List (β × Nat),
      listMaxN ((l.filter (fun e => 0 < e.2)).map Prod.snd)
        = listMaxN (l.map Prod.snd)
  | [] => rfl
  | a :: t => by
      by_cases h : 0 < a.2
      · simp [List.filter_cons, h, listMaxN_cons, listMaxN_filter_pos t]
      · have h0 : a.2 = 0 := by omega
        simp [List.filter_cons, h, h0, listMaxN_cons, listMaxN_filter_pos t]

theorem find?_filter_pos {β : Type} {M : Nat} (hM : 0 < M) :
    ∀ l : List (β × Nat),
      (l.filter (fun e => 0 < e.2)).find? (fun e => e.2 = M)
        = l.find? (fun e => e.2 = M)
  | [] => rfl
  | a :: t => by
      by_cases h : 0 < a.2
      · by_cases h2 : a.2 = M
        · rw [List.filter_cons, if_pos (by simpa using h),
            List.find?_cons_of_pos _ (by simpa using h2),
            List.find?_cons_of_pos _ (by simpa using h2)]
        · rw [List.filter_cons, if_pos (by simpa using h),
            List.find?_cons_of_neg _ (by simpa using h2),
            List.find?_cons_of_neg _ (by simpa using h2)]
          exact find?_filter_pos hM t
      · have h2 : ¬ (a.2 = M) := by omega
        rw [List.filter_cons, if_neg (by simpa using h),
          List.find?_cons_of_neg _ (by simpa using h2)]
        exact find?_filter_pos hM t

theorem listMaxN_pos_of_sum_pos : ∀ {l : List Nat}, 0 < l.sum → 0 < listMaxN l
  | [], h => by simp at h
  | a :: t, h => by
      rw [listMaxN_cons]
      by_cases ha : 0 < a
      · exact lt_of_lt_of_le ha (Nat.le_max_left _ _)
      · have ht : 0 < t.sum := by simp only [List.sum_cons] at h; omega
        exact lt_of_lt_of_le (listMaxN_pos_of_sum_pos ht) (Nat.le_max_right _ _)

theorem filter_flatten_eq {α : Type} (p : α → Bool) :
    ∀ L : List (List α),
      L.flatten.filter p = (L.map (fun l => l.filter p)).flatten
  | [] => rfl
  | l :: L => by
      simp [List.filter_append, filter_flatten_eq p L]

theorem filter_eq_self_of {α : Type} {p : α → Bool} :
    ∀ {l : List α}, (∀ a ∈ l, p a = true) → l.filter p = l
  | [], _ => rfl
  | a :: t, h => by
      rw [List.filter_cons, if_pos (h a (by simp))]
      exact congrArg (a :: ·) (filter_eq_self_of (fun x hx => h x (by simp [hx])))

theorem filter_eq_nil_of {α : Type} {p : α → Bool} :
    ∀ {l : List α}, (∀ a ∈ l, p a = false) → l.filter p = []
  | [], _ => rfl
  | a :: t, h => by
      rw [List.filter_cons, if_neg (by simp [h a (by simp)])]
      exact filter_eq_nil_of (fun x hx => h x (by simp [hx]))

theorem filter_key_eq {α : Type} :
    ∀ {l : List (Text × α)} {b : Text} {v : α},
      (l.map Prod.fst).Nodup → (b, v) ∈ l →
      l.filter (fun c => c.1 = b) = [(b, v)]
  | [], _, _, _, hmem => absurd hmem (by simp)
  | x :: t, b, v, hnd, hmem => by
      rw [List.map_cons, List.nodup_cons] at hnd
      by_cases hx : x.1 = b
      · have hxv : x = (b, v) := by
          rcases List.mem_cons.mp hmem with h | h
          · exact h.symm
          · exact absurd (List.mem_map.mpr ⟨(b, v), h, rfl⟩) (hx ▸ hnd.1)
        rw [List.filter_cons, if_pos (by simpa using hx), hxv]
        refine congrArg ((b, v) :: ·) (filter_eq_nil_of fun y hy => ?_)
        have : y.1 ≠ b := by
          intro hy1
          exact (hx ▸ hnd.1) (List.mem_map.mpr ⟨y, hy, hy1⟩)
        simpa using this
      · have hmem' : (b, v) ∈ t := by
          rcases List.mem_cons.mp hmem with h | h
          · exact absurd (by rw [← h]) hx
          · exact h
        rw [List.filter_cons, if_neg (by simpa using hx)]
        exact filter_key_eq hnd.2 hmem'

theorem prefixB_append_self : ∀ (l r : Text), prefixB l (l ++ r) = true
  | [], _ => rfl
  | c :: t, r => by simp [prefixB, prefixB_append_self t r]

/-- A `subcategory_scores` key splits as the category prefix used by
`startswith` followed by a space and the subcategory. -/
theorem key_split (c sub : Text) :
    keyOf c sub = (c ++ " >".toList) ++ (' ' :: sub) := by
  rw [keyOf, List.append_assoc, List.append_assoc]
  rfl

/-- No category name followed by `" >"` is a prefix of another category's
`subcategory_scores` key (claim C10's side condition). -/
theorem patterns_cross_keys :
    ∀ b ∈ patterns, ∀ c ∈ patterns, c.1 ≠ b.1 →
      ∀ p ∈ c.2, prefixB (b.1 ++ " >".toList) (keyOf c.1 p.1) = false := by decide

/-- `key.split(" > ")[1]` recovers exactly the subcategory on every key the
classifier builds. -/
theorem patterns_afterArrow :
    ∀ c ∈ patterns, ∀ p ∈ c.2, afterArrow (keyOf c.1 p.1) = p.1 := by decide

theorem patterns_sub_ne_nil :
    ∀ c ∈ patterns, ∀ p ∈ c.2, p.1.isEmpty = false := by decide

theorem patterns_names_nodup : (patterns.map Prod.fst).Nodup := by decide

/-- Every (category, subcategory) pair of the pattern table is also listed in
`VALID_CATEGORIES`. -/
theorem patterns_sub_valid :
    ∀ c ∈ patterns, ∀ p ∈ c.2,
      ∃ entry ∈ VALID_CATEGORIES, entry.1 = c.1 ∧ p.1 ∈ entry.2 := by decide

theorem flatten_if_single {β γ : Type} (f : Text × β → List γ) :
    ∀ {l : List (Text × β)} {b : Text} {subs0 : β},
      (l.map Prod.fst).Nodup → (b, subs0) ∈ l →
      (l.map (fun c => if c.1 = b then f c else [])).flatten = f (b, subs0)
  | [], _, _, _, hmem => absurd hmem (by simp)
  | x :: t, b, subs0, hnd, hmem => by
      rw [List.map_cons, List.nodup_cons] at hnd
      by_cases hx : x.1 = b
      · have hxv : x = (b, subs0) := by
          rcases List.mem_cons.mp hmem with h | h
          · exact h.symm
          · exact absurd (List.mem_map.mpr ⟨(b, subs0), h, rfl⟩) (hx ▸ hnd.1)
        rw [List.map_cons, if_pos hx, List.flatten_cons, hxv]
        have hrest : (t.map (fun c => if c.1 = b then f c else [])).flatten = [] := by
          rw [List.flatten_eq_nil_iff]
          intro l hl
          obtain ⟨c, hc, rfl⟩ := List.mem_map.mp hl
          have : c.1 ≠ b := by
            intro h1
            exact (hx ▸ hnd.1) (List.mem_map.mpr ⟨c, hc, h1⟩)
          rw [if_neg this]
        rw [hrest, List.append_nil]
      · have hmem' : (b, subs0) ∈ t := by
          rcases List.mem_cons.mp hmem with h | h
          · exact absurd (by rw [← h]) hx
          · exact h
        rw [List.map_cons, if_neg hx, List.flatten_cons, List.nil_append]
        exact flatten_if_single f hnd.2 hmem'

/-- Filtering `subcategory_scores` by `startswith(best_category + " >")`
recovers exactly the entries of the winning category. -/
theorem subcat_filter (text b : Text) (subs0 : List (Text × List Text))
    (hmem : (b, subs0) ∈ patterns) :
    (subcategoryScores text).filter
        (fun e => prefixB (b ++ " >".toList) e.1)
      = subEntries text b subs0 := by
  rw [subcategoryScores, filter_flatten_eq]
  simp only [List.map_map, Function.comp_def]
  have hcong : patterns.map
        (fun p => (subEntries text p.1 p.2).filter
          (fun e => prefixB (b ++ " >".toList) e.1))
      = patterns.map (fun p => if p.1 = b then subEntries text p.1 p.2 else []) := by
    apply List.map_congr_left
    intro c hc
    by_cases hcb : c.1 = b
    · rw [if_pos hcb]
      apply filter_eq_self_of
      intro e he
      rw [subEntries_eq] at he
      obtain ⟨q, hq, rfl⟩ := List.mem_map.mp (List.mem_of_mem_filter he)
      rw [hcb, key_split]
      exact prefixB_append_self _ _
    · rw [if_neg hcb]
      apply filter_eq_nil_of
      intro e he
      rw [subEntries_eq] at he
      obtain ⟨q, hq, rfl⟩ := List.mem_map.mp (List.mem_of_mem_filter he)
      exact patterns_cross_keys (b, subs0) hmem c hc hcb q hq
  rw [hcong]
  exact flatten_if_single (fun c => subEntries text c.1 c.2)
    patterns_names_nodup hmem

theorem subEntries_sum (text c : Text) (subs : List (Text × List Text)) :
    ((subEntries text c subs).map Prod.snd).sum = specCatScore text subs := by
  rw [subEntries_eq, sum_filter_pos]
  simp [specCatScore, List.map_map, Function.comp_def]

theorem catScoresAux_eq (text : Text) :
    ∀ l : List (Text × List (Text × List Text)),
      (l.filterMap (fun p =>
        if 0 < specCatScore text p.2 then
          some (p.1, specCatScore text p.2)
        else none))
      = ((l.map (fun p => (p.1, p.2, specCatScore text p.2))).filter
          (fun t => t.2.2 ≠ 0)).map (fun t => (t.1, t.2.2))
  | [] => rfl
  | p :: t => by
      by_cases h : 0 < specCatScore text p.2
      · rw [List.filterMap_cons_some
            (f := fun p : Text × List (Text × List Text) =>
              if 0 < specCatScore text p.2 then
                some (p.1, specCatScore text p.2) else none)
            (a := p) (b := (p.1, specCatScore text p.2)) (if_pos h),
          List.map_cons, List.filter_cons,
          if_pos (by simp [Nat.pos_iff_ne_zero.mp h]), List.map_cons]
        exact congrArg _ (catScoresAux_eq text t)
      · have h0 : specCatScore text p.2 = 0 := by omega
        rw [List.filterMap_cons_none
            (f := fun p : Text × List (Text × List Text) =>
              if 0 < specCatScore text p.2 then
                some (p.1, specCatScore text p.2) else none)
            (a := p) (if_neg h),
          List.map_cons, List.filter_cons, if_neg (by simp [h0])]
        exact catScoresAux_eq text t

/-- `category_scores` is the nonzero filter of the per-category spec scores. -/
theorem categoryScores_eq (text : Text) :
    categoryScores text
      = ((patterns.map (fun p => (p.1, p.2, specCatScore text p.2))).filter
          (fun t => t.2.2 ≠ 0)).map (fun t => (t.1, t.2.2)) := by
  have hfun : (fun p : Text × List (Text × List Text) =>
        let cs := ((subEntries text p.1 p.2).map Prod.snd).sum
        if 0 < cs then some (p.1, cs) else none)
      = (fun p => if 0 < specCatScore text p.2 then
          some (p.1, specCatScore text p.2) else none) := by
    funext p
    simp only [subEntries_sum]
  rw [categoryScores, hfun]
  exact catScoresAux_eq text patterns

/-- The subcategory-selection loop of the classifier finds exactly the first
subcategory of the winning category attaining the maximal subcategory score,
whenever the winning category has a nonzero score. -/
theorem pickSub_result (text b : Text) (subs0 : List (Text × List Text))
    (hmem : (b, subs0) ∈ patterns)
    (hpos : specCatScore text subs0 ≠ 0) :
    ∃ q0,
      (subs0.map (fun q => (q.1, subScore text q.2))).find?
          (fun q => q.2 =
            listMaxN ((subs0.map (fun q => (q.1, subScore text q.2))).map Prod.snd))
        = some q0
      ∧ pickSub b (subcategoryScores text) = (some q0.1, q0.2)
      ∧ q0.1.isEmpty = false := by
  have hsum : ((subs0.map (fun q => (q.1, subScore text q.2))).map Prod.snd).sum
      = specCatScore text subs0 := by
    simp [specCatScore, List.map_map, Function.comp_def]
  have hMpos : 0 < listMaxN ((subs0.map
      (fun q => (q.1, subScore text q.2))).map Prod.snd) :=
    listMaxN_pos_of_sum_pos (by rw [hsum]; exact Nat.pos_of_ne_zero hpos)
  have hmemM := listMaxN_pos_mem hMpos
  obtain ⟨q', hq', hq'val⟩ := List.mem_map.mp hmemM
  obtain ⟨q0, hfind⟩ := find?_eq_some_of_mem
    (p := fun q : Text × Nat => q.2 =
      listMaxN ((subs0.map (fun q => (q.1, subScore text q.2))).map Prod.snd))
    hq' (by simp [hq'val])
  have hq0mem : q0 ∈ subs0.map (fun q => (q.1, subScore text q.2)) :=
    List.mem_of_find?_eq_some hfind
  obtain ⟨q, hq, hqeq⟩ := List.mem_map.mp hq0mem
  have hq01 : q0.1 = q.1 := by rw [← hqeq]
  have haft : afterArrow (keyOf b q0.1) = q0.1 := by
    rw [hq01]
    exact patterns_afterArrow (b, subs0) hmem q hq
  refine ⟨q0, hfind, ?_, ?_⟩
  · rw [pickSub, pickSub_eq_filter, subcat_filter text b subs0 hmem,
      pickCore_eq]
    have hmax : listMaxN ((subEntries text b subs0).map Prod.snd)
        = listMaxN ((subs0.map (fun q => (q.1, subScore text q.2))).map Prod.snd) := by
      rw [subEntries_eq, listMaxN_filter_pos]
      simp [List.map_map, Function.comp_def]
    simp only [hmax]
    rw [if_pos (by simpa using hMpos), subEntries_eq,
      find?_filter_pos hMpos]
    have hmap : subs0.map (fun q => (keyOf b q.1, subScore text q.2))
        = (subs0.map (fun q => (q.1, subScore text q.2))).map
            (fun e => (keyOf b e.1, e.2)) := by
      simp [List.map_map, Function.comp_def]
    rw [hmap, List.find?_map]
    have hcomp : ((fun p : Text × Nat => decide (p.2 =
          listMaxN ((subs0.map (fun q => (q.1, subScore text q.2))).map Prod.snd)))
        ∘ (fun e : Text × Nat => (keyOf b e.1, e.2)))
        = fun q : Text × Nat => decide (q.2 =
          listMaxN ((subs0.map (fun q => (q.1, subScore text q.2))).map Prod.snd)) := rfl
    rw [hcomp, hfind]
    simp [haft]
  · rw [hq01]
    exact patterns_sub_ne_nil (b, subs0) hmem q hq

/-- The local classifier coincides with the spec-side first-argmax description
(shared helper; the claim theorems below restate it). -/
theorem analyze_eq_spec (s e : Text) :
    analyze_risk_local s e = specClassify s e := by
  simp only [analyze_risk_local, specClassify]
  rw [categoryScores_eq]
  generalize hnz : (patterns.map
      (fun p => (p.1, p.2, specCatScore (combinedText s e) p.2))).filter
      (fun t => t.2.2 ≠ 0) = nz
  cases nz with
  | nil => rfl
  | cons t0 rest =>
      rw [List.map_cons]
      simp only [pyMax]
      rw [pyMaxAux_eq]
      have hfold : (((t0.1, t0.2.2) : Text × Nat)
            :: rest.map (fun t => (t.1, t.2.2)))
          = (t0 :: rest).map (fun t => (t.1, t.2.2)) := rfl
      rw [hfold]
      have hsnd : ((t0 :: rest).map
            (fun t => (t.1, t.2.2))).map Prod.snd
          = (t0 :: rest).map (fun u => u.2.2) := by
        simp [List.map_map, Function.comp_def]
      simp only [hsnd]
      rw [List.find?_map]
      have hcomp : ((fun p : Text × Nat =>
            decide (p.2 = listMaxN ((t0 :: rest).map (fun u => u.2.2))))
          ∘ (fun t : Text × (List (Text × List Text) × Nat) => (t.1, t.2.2)))
          = fun t : Text × (List (Text × List Text) × Nat) =>
              decide (t.2.2 = listMaxN ((t0 :: rest).map (fun u => u.2.2))) := rfl
      rw [hcomp]
      have hmemM : listMaxN ((t0 :: rest).map (fun u => u.2.2))
          ∈ (t0 :: rest).map (fun u => u.2.2) := listMaxN_mem (by simp)
      obtain ⟨t', ht', ht'val⟩ := List.mem_map.mp hmemM
      obtain ⟨y, hy⟩ := find?_eq_some_of_mem
        (p := fun t => t.2.2 = listMaxN ((t0 :: rest).map (fun u => u.2.2)))
        ht' (by simp [ht'val])
      rw [hy]
      simp only [Option.map_some', Option.getD_some]
      -- provenance of the winner
      have hymem : y ∈ (t0 :: rest) := List.mem_of_find?_eq_some hy
      rw [← hnz] at hymem
      have hynz : y.2.2 ≠ 0 := by
        have := List.of_mem_filter hymem
        simpa using this
      obtain ⟨pat, hpat, hyeq⟩ := List.mem_map.mp (List.mem_of_mem_filter hymem)
      have hy1 : y.1 = pat.1 := by rw [← hyeq]
      have hy21 : y.2.1 = pat.2 := by rw [← hyeq]
      have hy22 : y.2.2 = specCatScore (combinedText s e) y.2.1 := by
        rw [hy21, ← hyeq]
      have hmempat : (y.1, y.2.1) ∈ patterns := by
        rw [hy1, hy21]
        exact hpat
      have hpos : specCatScore (combinedText s e) y.2.1 ≠ 0 := by
        rw [← hy22]; exact hynz
      obtain ⟨q0, hfind, hpick, hq0ne⟩ :=
        pickSub_result (combinedText s e) y.1 y.2.1 hmempat hpos
      rw [hpick, hfind]
      simp [hq0ne]

/-- No category scored: both arms of the code's neutral-content check return
General/Neutral/Low. -/
theorem classify_empty (s e : Text)
    (h : categoryScores (combinedText s e) = []) :
    analyze_risk_local s e
      = ⟨"General".toList, "Neutral".toList, "Low".toList⟩ := by
  simp only [analyze_risk_local, h, pyMax]

/-- Structure of the classifier result when some category scores: the winning
category is a pattern entry, and the subcategory loop returns its first
maximal-score subcategory with a positive score. -/
theorem classify_master (s e : Text)
    (hne : categoryScores (combinedText s e) ≠ []) :
    ∃ cE ∈ patterns, ∃ q0 : Text × Nat,
      q0 ∈ cE.2.map (fun q => (q.1, subScore (combinedText s e) q.2))
      ∧ pickSub cE.1 (subcategoryScores (combinedText s e)) = (some q0.1, q0.2)
      ∧ analyze_risk_local s e = ⟨cE.1, q0.1, riskLevelOf (combinedText s e)⟩
      ∧ 0 < q0.2 := by
  simp only [analyze_risk_local]
  rw [categoryScores_eq] at hne ⊢
  cases hnz : (patterns.map
      (fun p => (p.1, p.2, specCatScore (combinedText s e) p.2))).filter
      (fun t => t.2.2 ≠ 0) with
  | nil => rw [hnz] at hne; simp at hne
  | cons t0 rest =>
      rw [List.map_cons]
      simp only [pyMax]
      rw [pyMaxAux_eq]
      have hfold : (((t0.1, t0.2.2) : Text × Nat)
            :: rest.map (fun t => (t.1, t.2.2)))
          = (t0 :: rest).map (fun t => (t.1, t.2.2)) := rfl
      rw [hfold]
      have hsnd : ((t0 :: rest).map
            (fun t => (t.1, t.2.2))).map Prod.snd
          = (t0 :: rest).map (fun u => u.2.2) := by
        simp [List.map_map, Function.comp_def]
      simp only [hsnd]
      rw [List.find?_map]
      have hcomp : ((fun p : Text × Nat =>
            decide (p.2 = listMaxN ((t0 :: rest).map (fun u => u.2.2))))
          ∘ (fun t : Text × (List (Text × List Text) × Nat) => (t.1, t.2.2)))
          = fun t : Text × (List (Text × List Text) × Nat) =>
              decide (t.2.2 = listMaxN ((t0 :: rest).map (fun u => u.2.2))) := rfl
      rw [hcomp]
      have hmemM : listMaxN ((t0 :: rest).map (fun u => u.2.2))
          ∈ (t0 :: rest).map (fun u => u.2.2) := listMaxN_mem (by simp)
      obtain ⟨t', ht', ht'val⟩ := List.mem_map.mp hmemM
      obtain ⟨y, hy⟩ := find?_eq_some_of_mem
        (p := fun t => t.2.2 = listMaxN ((t0 :: rest).map (fun u => u.2.2)))
        ht' (by simp [ht'val])
      rw [hy]
      simp only [Option.map_some', Option.getD_some]
      have hymem : y ∈ (t0 :: rest) := List.mem_of_find?_eq_some hy
      rw [← hnz] at hymem
      have hynz : y.2.2 ≠ 0 := by
        have := List.of_mem_filter hymem
        simpa using this
      obtain ⟨pat, hpat, hyeq⟩ := List.mem_map.mp (List.mem_of_mem_filter hymem)
      have hy1 : y.1 = pat.1 := by rw [← hyeq]
      have hy21 : y.2.1 = pat.2 := by rw [← hyeq]
      have hy22 : y.2.2 = specCatScore (combinedText s e) y.2.1 := by
        rw [hy21, ← hyeq]
      have hmempat : (y.1, y.2.1) ∈ patterns := by
        rw [hy1, hy21]
        exact hpat
      have hpos : specCatScore (combinedText s e) y.2.1 ≠ 0 := by
        rw [← hy22]; exact hynz
      obtain ⟨q0, hfind, hpick, hq0ne⟩ :=
        pickSub_result (combinedText s e) y.1 y.2.1 hmempat hpos
      refine ⟨(y.1, y.2.1), hmempat, q0,
        List.mem_of_find?_eq_some hfind, hpick, ?_, ?_⟩
      · rw [hpick]
        simp [hq0ne]
      · have hq02 : q0.2 = listMaxN ((y.2.1.map
            (fun q => (q.1, subScore (combinedText s e) q.2))).map Prod.snd) := by
          simpa using List.find?_some hfind
        have hsum : ((y.2.1.map
            (fun q => (q.1, subScore (combinedText s e) q.2))).map Prod.snd).sum
            = specCatScore (combinedText s e) y.2.1 := by
          simp [specCatScore, List.map_map, Function.comp_def]
        rw [hq02]
        exact listMaxN_pos_of_sum_pos (by rw [hsum]; exact Nat.pos_of_ne_zero hpos)

theorem lookup_mem {α : Type} :
    ∀ {l : List (Text × α)} {k : Text} {v : α},
      List.lookup k l = some v → (k, v) ∈ l := by
  intro l
  induction l with
  | nil => intro k v h; simp [List.lookup] at h
  | cons x t ih =>
      intro k v h
      obtain ⟨k1, v1⟩ := x
      simp only [List.lookup] at h
      cases hk : (k == k1) with
      | true =>
          rw [hk] at h
          simp only [Option.some.injEq] at h
          exact List.mem_cons.mpr (Or.inl (by rw [eq_of_beq hk, h]))
      | false =>
          rw [hk] at h
          exact List.mem_cons.mpr (Or.inr (ih h))

theorem patterns_names_eq : patterns.map Prod.fst = catNames := by decide

theorem riskLevelOf_mem (t : Text) : riskLevelOf t ∈ VALID_RISK_LEVELS := by
  rw [riskLevelOf]
  split_ifs <;> decide

/-- A keyword occurring in the text forces its subcategory to score. -/
theorem subScore_pos_of_mem {text k : Text} {kws : List Text}
    (hk : k ∈ kws) (h : substrB k text = true) : 0 < subScore text kws := by
  rw [subScore, List.length_pos]
  exact List.ne_nil_of_mem (List.mem_filter.mpr ⟨hk, by simpa using h⟩)

/-- A scoring keyword anywhere in the table makes `category_scores`
nonempty. -/
theorem categoryScores_ne_nil_of_kw {text k : Text}
    {c : Text × List (Text × List Text)} {q : Text × List Text}
    (hc : c ∈ patterns) (hq : q ∈ c.2) (hk : k ∈ q.2)
    (hsub : substrB k text = true) : categoryScores text ≠ [] := by
  rw [categoryScores_eq]
  intro hcontra
  rw [List.map_eq_nil_iff] at hcontra
  have hscore : 0 < specCatScore text c.2 := by
    have h1 : 0 < subScore text q.2 := subScore_pos_of_mem hk hsub
    have h2 : subScore text q.2 ≤ (c.2.map (fun p => subScore text p.2)).sum :=
      List.single_le_sum (fun x _ => Nat.zero_le x) _
        (List.mem_map.mpr ⟨q, hq, rfl⟩)
    rw [specCatScore]
    omega
  have hmem : (c.1, c.2, specCatScore text c.2)
      ∈ (patterns.map (fun p => (p.1, p.2, specCatScore text p.2))).filter
        (fun t => t.2.2 ≠ 0) := by
    refine List.mem_filter.mpr ⟨List.mem_map.mpr ⟨c, hc, rfl⟩, ?_⟩
    simp only [decide_eq_true_eq]
    omega
  rw [hcontra] at hmem
  exact absurd hmem (by simp)

/-- With a nonempty `category_scores`, the returned level is exactly the
independent severity scan of the combined text. -/
theorem level_eq_of_scores_ne_nil (s e : Text)
    (hne : categoryScores (combinedText s e) ≠ []) :
    (analyze_risk_local s e).risk_level = riskLevelOf (combinedText s e) := by
  obtain ⟨cE, _, q0, _, _, heq, _⟩ := classify_master s e hne
  rw [heq]

/-! ### Claim theorems -/

/-- C1: for every pair of input strings, the Local Classifier lowercases
their concatenation and, for each (category, subcategory) pair, scores one
point per keyword of that subcategory present as a substring (at least once,
not per occurrence); it sums subcategory scores per category, excludes
zero-score categories, returns General/Neutral/Low when no category scores,
and otherwise returns the first category attaining the maximal category score
in Taxonomy iteration order and, within it, the first subcategory attaining
the maximal subcategory score (strictly greater to replace). -/
theorem C1_local_classifier_matches_spec :
    ∀ s e : Text, analyze_risk_local s e = specClassify s e :=
  analyze_eq_spec

/-- C2: on every input where some category scores nonzero, the risk level is
exactly the strict-priority severity scan of the combined text alone
(independent of the chosen category and subcategory); in particular, every
input whose combined text contains "bank run" is assigned level Critical. -/
theorem C2_severity_scan_and_bank_run (s e : Text) :
    (categoryScores (combinedText s e) ≠ [] →
      (analyze_risk_local s e).risk_level = riskLevelOf (combinedText s e))
    ∧ (substrB "bank run".toList (combinedText s e) = true →
        (analyze_risk_local s e).risk_level = "Critical".toList) := by
  constructor
  · exact level_eq_of_scores_ne_nil s e
  · intro hbr
    have hex : ∃ c ∈ patterns, ∃ q ∈ c.2, "bank run".toList ∈ q.2 := by decide
    obtain ⟨c, hc, q, hq, hk⟩ := hex
    have hne := categoryScores_ne_nil_of_kw hc hq hk hbr
    rw [level_eq_of_scores_ne_nil s e hne, riskLevelOf,
      if_pos (List.any_eq_true.mpr ⟨"bank run".toList, by decide, hbr⟩)]

/-- Witness for C2 at the concrete input ("bank run", ""). -/
theorem C2_severity_scan_witness :
    categoryScores (combinedText "bank run".toList []) ≠ []
    ∧ substrB "bank run".toList (combinedText "bank run".toList []) = true
    ∧ (analyze_risk_local "bank run".toList []).risk_level
        = riskLevelOf (combinedText "bank run".toList [])
    ∧ (analyze_risk_local "bank run".toList []).risk_level = "Critical".toList :=
  ⟨by decide, by decide,
    (C2_severity_scan_and_bank_run "bank run".toList []).1 (by decide),
    (C2_severity_scan_and_bank_run "bank run".toList []).2 (by decide)⟩

/-- C10: whenever some category scores, the subcategory loop finds a
positive-score subcategory of the winning category (no category name followed
by " >" is a prefix of another category's key), so the defensive fallback to
the Taxonomy's first-listed subcategory is never taken and the returned
subcategory scores at least 1. -/
theorem C10_subcategory_pick_never_falls_back (s e : Text)
    (hne : categoryScores (combinedText s e) ≠ []) :
    (∀ b ∈ patterns, ∀ c ∈ patterns, c.1 ≠ b.1 →
      ∀ p ∈ c.2, prefixB (b.1 ++ " >".toList) (keyOf c.1 p.1) = false)
    ∧ ∃ cE ∈ patterns, ∃ q ∈ cE.2,
        (analyze_risk_local s e).risk_category = cE.1
        ∧ (analyze_risk_local s e).risk_subcategory = q.1
        ∧ (pickSub cE.1 (subcategoryScores (combinedText s e))).1 = some q.1
        ∧ 1 ≤ subScore (combinedText s e) q.2 := by
  refine ⟨patterns_cross_keys, ?_⟩
  obtain ⟨cE, hce, q0, hq0mem, hpick, heq, hpos⟩ := classify_master s e hne
  obtain ⟨q, hq, hqeq⟩ := List.mem_map.mp hq0mem
  have h1 : q0.1 = q.1 := by rw [← hqeq]
  have h2 : q0.2 = subScore (combinedText s e) q.2 := by rw [← hqeq]
  refine ⟨cE, hce, q, hq, ?_, ?_, ?_, ?_⟩
  · rw [heq]
  · rw [heq]; exact h1
  · rw [hpick]; simpa using h1
  · rw [← h2]; omega

/-- Witness for C10 at the concrete input ("bank run", ""). -/
theorem C10_subcategory_pick_witness :
    categoryScores (combinedText "bank run".toList []) ≠ []
    ∧ ((∀ b ∈ patterns, ∀ c ∈ patterns, c.1 ≠ b.1 →
        ∀ p ∈ c.2, prefixB (b.1 ++ " >".toList) (keyOf c.1 p.1) = false)
      ∧ ∃ cE ∈ patterns, ∃ q ∈ cE.2,
          (analyze_risk_local "bank run".toList []).risk_category = cE.1
          ∧ (analyze_risk_local "bank run".toList []).risk_subcategory = q.1
          ∧ (pickSub cE.1 (subcategoryScores (combinedText "bank run".toList []))).1
              = some q.1
          ∧ 1 ≤ subScore (combinedText "bank run".toList []) q.2) :=
  ⟨by decide,
    C10_subcategory_pick_never_falls_back "bank run".toList [] (by decide)⟩

/-- C3 counterexample: the AI-path validation passes unresolved fields
through, so its output category can be neither empty nor a Taxonomy name, and
its level can fall outside the closed level set. -/
theorem C3_counterexample_ai_passthrough :
    (normalizeAssessment "security risk".toList "x".toList
        "Extreme".toList).risk_category ∉ catNames
    ∧ (normalizeAssessment "security risk".toList "x".toList
        "Extreme".toList).risk_category ≠ []
    ∧ (normalizeAssessment "security risk".toList "x".toList
        "Extreme".toList).risk_level ∉ ([] :: VALID_RISK_LEVELS) := by decide

/-- C3 (amended): the Local Classifier always returns a Taxonomy category, a
subcategory of that category, and a canonical level; the AI-path validation
only guarantees that each field is either resolved to a canonical value or
passed through exactly as provided. -/
theorem C3_closed_output_amended :
    (∀ s e : Text,
      (analyze_risk_local s e).risk_category ∈ catNames
      ∧ (∃ entry ∈ VALID_CATEGORIES,
          entry.1 = (analyze_risk_local s e).risk_category
          ∧ (analyze_risk_local s e).risk_subcategory ∈ entry.2)
      ∧ (analyze_risk_local s e).risk_level ∈ VALID_RISK_LEVELS)
    ∧ (∀ c sc lv : Text,
        ((normalizeAssessment c sc lv).risk_category ∈ catNames
          ∨ (normalizeAssessment c sc lv).risk_category = c)
        ∧ ((∃ entry ∈ VALID_CATEGORIES,
              (normalizeAssessment c sc lv).risk_subcategory ∈ entry.2)
          ∨ (normalizeAssessment c sc lv).risk_subcategory = sc)
        ∧ ((normalizeAssessment c sc lv).risk_level ∈ VALID_RISK_LEVELS
          ∨ (normalizeAssessment c sc lv).risk_level = lv)) := by
  constructor
  · intro s e
    by_cases hne : categoryScores (combinedText s e) = []
    · rw [classify_empty s e hne]
      exact ⟨by decide, by decide, by decide⟩
    · obtain ⟨cE, hce, q0, hq0mem, _, heq, _⟩ := classify_master s e hne
      rw [heq]
      obtain ⟨q, hq, hqeq⟩ := List.mem_map.mp hq0mem
      have hq01 : q0.1 = q.1 := by rw [← hqeq]
      refine ⟨?_, ?_, riskLevelOf_mem _⟩
      · rw [← patterns_names_eq]
        exact List.mem_map.mpr ⟨cE, hce, rfl⟩
      · obtain ⟨entry, hent, hent1, hentm⟩ := patterns_sub_valid cE hce q hq
        exact ⟨entry, hent, hent1, by rw [hq01]; exact hentm⟩
  · intro c sc lv
    refine ⟨?_, ?_, ?_⟩
    · show fixCategory c ∈ catNames ∨ fixCategory c = c
      rw [fixCategory]
      split_ifs with h
      · cases hf : catNames.find? (fun v =>
            substrB (lowerT v) (lowerT c) || substrB (lowerT c) (lowerT v)) with
        | none => exact Or.inr rfl
        | some v => exact Or.inl (List.mem_of_find?_eq_some hf)
      · exact Or.inr rfl
    · show (∃ entry ∈ VALID_CATEGORIES,
          fixSubcategory (fixCategory c) sc ∈ entry.2)
        ∨ fixSubcategory (fixCategory c) sc = sc
      simp only [fixSubcategory]
      by_cases h1 : fixCategory c ≠ [] ∧ sc ≠ []
      · rw [if_pos h1]
        by_cases h2 : sc ∉ (List.lookup (fixCategory c) VALID_CATEGORIES).getD []
        · rw [if_pos h2]
          cases hlk : List.lookup (fixCategory c) VALID_CATEGORIES with
          | none =>
              simp only [hlk, Option.getD_none, List.find?_nil]
              exact Or.inr trivial
          | some subs =>
              simp only [hlk, Option.getD_some]
              cases hf : subs.find? (fun v =>
                  substrB (lowerT v) (lowerT sc) ||
                    substrB (lowerT sc) (lowerT v)) with
              | none => exact Or.inr rfl
              | some v =>
                  exact Or.inl ⟨(fixCategory c, subs), lookup_mem hlk,
                    List.mem_of_find?_eq_some hf⟩
        · rw [if_neg h2]
          exact Or.inr rfl
      · rw [if_neg h1]
        exact Or.inr rfl
    · show fixLevel lv ∈ VALID_RISK_LEVELS ∨ fixLevel lv = lv
      rw [fixLevel]
      split_ifs with h
      · cases hf : VALID_RISK_LEVELS.find? (fun v => lowerT v == lowerT lv) with
        | none => exact Or.inr rfl
        | some v => exact Or.inl (List.mem_of_find?_eq_some hf)
      · exact Or.inr rfl

/-- C4: a SAFETY finish reason yields exactly the General/Neutral/High
sentinel; any other non-STOP finish reason yields the all-empty record; the
two results are distinct. -/
theorem C4_finish_reason_dichotomy (fr : Text) :
    (substrB "SAFETY".toList (upperT fr) = true →
      handleFinishReason (some fr)
        = some ⟨"General".toList, "Neutral".toList, "High".toList⟩)
    ∧ (fr ≠ [] → substrB "SAFETY".toList (upperT fr) = false →
        substrB "STOP".toList (upperT fr) = false →
        handleFinishReason (some fr) = some ⟨[], [], []⟩)
    ∧ (⟨"General".toList, "Neutral".toList, "High".toList⟩ : RiskResult)
        ≠ ⟨[], [], []⟩ := by
  refine ⟨?_, ?_, by decide⟩
  · intro h
    have hfr : fr ≠ [] := by
      intro hnil
      rw [hnil] at h
      simp [upperT, substrB, prefixB] at h
    simp only [handleFinishReason]
    rw [if_pos ⟨hfr, h⟩]
    rfl
  · intro h1 h2 h3
    simp only [handleFinishReason]
    rw [if_neg (fun hcon => absurd hcon.2 (by rw [h2]; decide)),
      if_pos ⟨h1, by rw [h3]; decide⟩]
    rfl

/-- Witness for C4 at the concrete finish reasons "SAFETY" and "MAX_TOKENS". -/
theorem C4_finish_reason_witness :
    substrB "SAFETY".toList (upperT "SAFETY".toList) = true
    ∧ handleFinishReason (some "SAFETY".toList)
        = some ⟨"General".toList, "Neutral".toList, "High".toList⟩
    ∧ ("MAX_TOKENS".toList ≠ []
        ∧ substrB "SAFETY".toList (upperT "MAX_TOKENS".toList) = false
        ∧ substrB "STOP".toList (upperT "MAX_TOKENS".toList) = false)
    ∧ handleFinishReason (some "MAX_TOKENS".toList) = some ⟨[], [], []⟩ :=
  ⟨by decide, (C4_finish_reason_dichotomy "SAFETY".toList).1 (by decide),
    ⟨by decide, by decide, by decide⟩,
    (C4_finish_reason_dichotomy "MAX_TOKENS".toList).2.1
      (by decide) (by decide) (by decide)⟩

/-- C5 counterexample: the empty extracted category is not an exact match to
any Taxonomy name and a containment-matching category exists ("Operational
Risk", the first), yet the normalizer passes the empty string through instead
of accepting it. -/
theorem C5_counterexample_empty_category :
    fixCategory [] = []
    ∧ ([] : Text) ∉ catNames
    ∧ catNames.find? (fun v =>
        substrB (lowerT v) (lowerT []) || substrB (lowerT []) (lowerT v))
      = some "Operational Risk".toList
    ∧ fixCategory [] ≠ "Operational Risk".toList := by decide

/-- C5 (amended): for every non-empty extracted category that is not an exact
Taxonomy name, the normalizer accepts the first valid category related by
case-insensitive bidirectional containment, and passes the field through
unchanged when none matches; "Reputational" resolves to "Reputational Risk"
while "security risk" is left as provided. -/
theorem C5_fuzzy_category_amended :
    (∀ c : Text, c ≠ [] → c ∉ catNames →
      fixCategory c =
        match catNames.find? (fun v =>
            substrB (lowerT v) (lowerT c) || substrB (lowerT c) (lowerT v)) with
        | some v => v
        | none => c)
    ∧ fixCategory "Reputational".toList = "Reputational Risk".toList
    ∧ fixCategory "security risk".toList = "security risk".toList := by
  refine ⟨?_, by decide, by decide⟩
  intro c h1 h2
  rw [fixCategory, if_pos ⟨h1, h2⟩]

/-- Witness for C5 at the concrete input "Reputational". -/
theorem C5_fuzzy_category_witness :
    "Reputational".toList ≠ []
    ∧ "Reputational".toList ∉ catNames
    ∧ fixCategory "Reputational".toList
        = match catNames.find? (fun v =>
            substrB (lowerT v) (lowerT "Reputational".toList)
              || substrB (lowerT "Reputational".toList) (lowerT v)) with
          | some v => v
          | none => "Reputational".toList :=
  ⟨by decide, by decide,
    C5_fuzzy_category_amended.1 "Reputational".toList (by decide) (by decide)⟩

/-- C6: whenever no valid JSON can be parsed from the (normalized) response
text, both normalizer code paths return without raising: the
`get_risk_assessment` path takes its dedicated parse-error branch whose
returned dict is all-empty, and `ModelParser.parse_ai_response` takes its
dedicated JSON-decode-error branch (returning `None`); on the concrete input
"not json at all" both do exactly that. -/
theorem C6_parse_failure_empty_result (t : Text) :
    (jsonParse (braceSpan (stripFencesPR (pystrip t))) = none →
      processResponseText t = PROutcome.parseError
      ∧ (processResponseText t).result = emptyResult)
    ∧ (jsonParse (stripFencesMP t) = none →
        parse_ai_response t none = MPOutcome.parseError)
    ∧ processResponseText "not json at all".toList = PROutcome.parseError
    ∧ parse_ai_response "not json at all".toList none = MPOutcome.parseError := by
  refine ⟨?_, ?_, rfl, rfl⟩
  · intro h
    have h1 : processResponseText t = PROutcome.parseError := by
      simp only [processResponseText, h]
    exact ⟨h1, by rw [h1]; rfl⟩
  · intro h
    simp only [parse_ai_response, h]

/-- Witness for C6 at the concrete input "not json at all". -/
theorem C6_parse_failure_witness :
    jsonParse (braceSpan (stripFencesPR (pystrip "not json at all".toList))) = none
    ∧ (processResponseText "not json at all".toList = PROutcome.parseError
      ∧ (processResponseText "not json at all".toList).result = emptyResult)
    ∧ jsonParse (stripFencesMP "not json at all".toList) = none
    ∧ parse_ai_response "not json at all".toList none = MPOutcome.parseError :=
  ⟨rfl, (C6_parse_failure_empty_result "not json at all".toList).1 rfl,
    rfl, (C6_parse_failure_empty_result "not json at all".toList).2.1 rfl⟩

/-- C7 counterexample: the claim says both call sites slice to the brace span
so prose-embedded JSON is recovered and parsed; but
`ModelParser.parse_ai_response` performs no such slicing and fails with a
parse error on the spec's own embedded-JSON example, even though the slice of
that very text would parse. -/
theorem C7_counterexample_model_parser_no_span :
    parse_ai_response proseExample none = MPOutcome.parseError
    ∧ (jsonParse (braceSpan (stripFencesMP proseExample))).isSome = true :=
  ⟨rfl, rfl⟩

/-- C7 (amended): only the `get_risk_assessment` call site slices from the
first opening brace to the last closing brace (when both exist in order)
before parsing, recovering the spec's prose-embedded JSON example;
`ModelParser.parse_ai_response` parses the fence-stripped text directly and
fails on that same example. -/
theorem C7_brace_span_amended :
    (∀ (t : Text) (i j : Nat), findChar (Char.ofNat 123) t = some i →
      rfindChar (Char.ofNat 125) t = some j → i < j →
      braceSpan t = (t.take (j + 1)).drop i)
    ∧ processResponseText proseExample
        = PROutcome.ok ⟨"General".toList, "Neutral".toList, "Low".toList⟩
    ∧ parse_ai_response proseExample none = MPOutcome.parseError := by
  refine ⟨?_, rfl, rfl⟩
  intro t i j hi hj hij
  simp only [braceSpan, hi, hj]
  rw [if_pos hij]

/-- Witness for C7 at the concrete five-character text `a{b}c`. -/
theorem C7_brace_span_witness :
    findChar (Char.ofNat 123) ['a', Char.ofNat 123, 'b', Char.ofNat 125, 'c']
      = some 1
    ∧ rfindChar (Char.ofNat 125) ['a', Char.ofNat 123, 'b', Char.ofNat 125, 'c']
      = some 3
    ∧ (1 : Nat) < 3
    ∧ braceSpan ['a', Char.ofNat 123, 'b', Char.ofNat 125, 'c']
        = ((['a', Char.ofNat 123, 'b', Char.ofNat 125, 'c'].take 4).drop 1) :=
  ⟨rfl, rfl, by decide,
    C7_brace_span_amended.1 ['a', Char.ofNat 123, 'b', Char.ofNat 125, 'c']
      1 3 rfl rfl (by decide)⟩

/-- C8: the extracted confidence is coerced to a number; failed coercion
yields null, values outside [0, 1] are clamped to the range, in-range values
are kept; the built model's confidence field is exactly that coercion of the
extracted `confidence_score`. -/
theorem C8_confidence_coercion_clamp :
    (∀ q : Rat, 0 ≤ q → q ≤ 1 →
      coerceConfidence (some (JVal.jnum q)) = some q)
    ∧ (∀ q : Rat, 1 < q → coerceConfidence (some (JVal.jnum q)) = some 1)
    ∧ (∀ q : Rat, q < 0 → coerceConfidence (some (JVal.jnum q)) = some 0)
    ∧ coerceConfidence (some (JVal.jstr "not a number".toList)) = none
    ∧ coerceConfidence (some (JVal.jnum (3 / 2))) = some 1
    ∧ (∀ (fields : List (Text × JVal)) (rid : Option Int)
        (pc : ProcessedCommentCreate),
        extractFields rid fields = MPOutcome.ok pc →
        pc.confidence_score
          = coerceConfidence (lookupLast fields "confidence_score".toList)) := by
  refine ⟨?_, ?_, ?_, rfl, ?_, ?_⟩
  · intro q h0 h1
    show some (if q < 0 ∨ 1 < q then max 0 (min 1 q) else q) = some q
    rw [if_neg (by push_neg; exact ⟨h0, h1⟩)]
  · intro q h
    show some (if q < 0 ∨ 1 < q then max 0 (min 1 q) else q) = some 1
    rw [if_pos (Or.inr h), min_eq_left (le_of_lt h),
      max_eq_right (by norm_num : (0 : Rat) ≤ 1)]
  · intro q h
    show some (if q < 0 ∨ 1 < q then max 0 (min 1 q) else q) = some 0
    rw [if_pos (Or.inl h),
      min_eq_right (le_of_lt (lt_trans h (by norm_num : (0 : Rat) < 1))),
      max_eq_left (le_of_lt h)]
  · show some (if (3 / 2 : Rat) < 0 ∨ 1 < (3 / 2 : Rat)
        then max 0 (min 1 (3 / 2 : Rat)) else (3 / 2 : Rat)) = some 1
    rw [if_pos (Or.inr (by norm_num)), min_eq_left (by norm_num),
      max_eq_right (by norm_num : (0 : Rat) ≤ 1)]
  · intro fields rid pc h
    rw [extractFields] at h
    split at h
    · cases h
      rfl
    · simp at h

/-- Witness for C8 at the concrete confidence value 1/2. -/
theorem C8_confidence_witness :
    ((0 : Rat) ≤ 1 / 2) ∧ ((1 : Rat) / 2 ≤ 1)
    ∧ coerceConfidence (some (JVal.jnum (1 / 2))) = some (1 / 2) :=
  ⟨by norm_num, by norm_num,
    C8_confidence_coercion_clamp.1 (1 / 2) (by norm_num) (by norm_num)⟩

/-- C9 counterexample: on a response whose translation carries surrounding
whitespace, the normalizer passes the translation through untrimmed (while
risk is trimmed), refuting the claim that both free-text fields are
trimmed. -/
theorem C9_counterexample_translation_untrimmed :
    mpTranslation (parse_ai_response trimExample none) = some " hello ".toList
    ∧ pystrip " hello ".toList = "hello".toList
    ∧ (" hello ".toList : Text) ≠ "hello".toList
    ∧ mpRisk (parse_ai_response trimExample none) = some "r1".toList :=
  ⟨rfl, rfl, by decide, rfl⟩

/-- C9 (amended): in the model built by the normalizer, the risk description
string is str()-coerced and trimmed of surrounding whitespace, while the
translation text is passed through exactly as provided (not trimmed); neither
is otherwise validated. -/
theorem C9_passthrough_amended :
    ∀ (fields : List (Text × JVal)) (rid : Option Int)
      (pc : ProcessedCommentCreate) (t r : Text),
      lookupLast fields "english_text".toList = some (JVal.jstr t) →
      lookupLast fields "risk".toList = some (JVal.jstr r) →
      extractFields rid fields = MPOutcome.ok pc →
      pc.translation_en = some t ∧ pc.risk = some (pystrip r) := by
  intro fields rid pc t r ht hr hok
  have hrf : riskField (some (JVal.jstr r)) = some (some (pystrip r)) := by
    by_cases hre : r.isEmpty
    · have hr0 : r = [] := by simpa using hre
      subst hr0
      rfl
    · have htr : pyTruthy (JVal.jstr r) = true := by simp [pyTruthy, hre]
      simp [riskField, htr, pyStr]
  have hsf : strFieldAccept (some (JVal.jstr t)) = some (some t) := rfl
  rw [extractFields, ht, hr, hsf, hrf] at hok
  cases htl : threatField (lookupLast fields "threat_level".toList) with
  | none => rw [htl] at hok; simp at hok
  | some tl =>
      rw [htl] at hok
      cases hok
      exact ⟨rfl, rfl⟩

/-- Witness for C9 at a concrete two-field response object. -/
theorem C9_passthrough_witness :
    lookupLast [("english_text".toList, JVal.jstr " hi ".toList),
        ("risk".toList, JVal.jstr " r ".toList)] "english_text".toList
      = some (JVal.jstr " hi ".toList)
    ∧ lookupLast [("english_text".toList, JVal.jstr " hi ".toList),
        ("risk".toList, JVal.jstr " r ".toList)] "risk".toList
      = some (JVal.jstr " r ".toList)
    ∧ ((⟨none, none, none, none, some " hi ".toList, none, none, none,
        some "r".toList, none, false⟩ : ProcessedCommentCreate).translation_en
          = some " hi ".toList
      ∧ (⟨none, none, none, none, some " hi ".toList, none, none, none,
          some "r".toList, none, false⟩ :
            ProcessedCommentCreate).risk = some (pystrip " r ".toList)) :=
  ⟨rfl, rfl,
    C9_passthrough_amended
      [("english_text".toList, JVal.jstr " hi ".toList),
        ("risk".toList, JVal.jstr " r ".toList)] none
      ⟨none, none, none, none, some " hi ".toList, none, none, none,
        some "r".toList, none, false⟩
      " hi ".toList " r ".toList rfl rfl rfl⟩

end Gaado
